import Mathlib

/-!
Shallow embedding of the `ddrive` backup-health monitor (Rust) and proofs
about its catalog, object store, change detector and verifier.

Conventions of the embedding:
* Rust `u64` values are `Nat`; `i64`/`i32` values are `Int`; the `as`
  casts that can wrap are made explicit (`u64AsI64`, `i64AsU64`).
* Timestamps (`CURRENT_TIMESTAMP`, `NaiveDateTime`) are integer seconds,
  passed explicitly where the code reads the clock.
* Paths are repo-relative `String`s; `convert_to_relative_path` is the
  identity on them (its failure branch rejects paths outside the repo,
  which never arise for the repo-relative inputs considered here).
* Filesystem reads and checksum computations are oracles passed as
  function arguments; fallible Rust functions return `Except`/`Option`.
* SQLite auto-increment `id` columns are omitted: no modelled code path
  reads them.
-/

namespace Ddrive

/-- `x as u64` applied to an `i64` value (two's-complement wrap). -/
def i64AsU64 (x : Int) : Nat := (x % (2 : Int) ^ 64).toNat

/-- `x as i64` applied to a `u64` value (two's-complement wrap). -/
def u64AsI64 (x : Nat) : Int :=
  if x % 2 ^ 64 < 2 ^ 63 then (x % 2 ^ 64 : Nat) else (x % 2 ^ 64 : Nat) - 2 ^ 64

/-- Row of the `files` table (`FileRecord` in `database.rs`). -/
structure FileRecord where
  path : String
  created_at : Int
  updated_at : Int
  last_checked : Option Int
  b3sum : String
  size : Int
  deriving Repr, DecidableEq

/-- Row of the `history` table (`HistoryRecord` in `database.rs`); the
`action_type` column stores the `i32` code of `ActionType`. -/
structure HistoryRow where
  action_id : Int
  action_type : Int
  path : String
  b3sum : Option String
  size : Option Int
  metadata : Option String
  deriving Repr, DecidableEq

/-- `ActionType` from `database.rs` (this variant has no `Rename`). -/
inductive ActionType where
  | Unknown
  | Add
  | Delete
  | Update
  deriving Repr, DecidableEq

/-- `ActionType::to_i32` (the `#[repr(i32)]` discriminants). -/
def ActionType.to_i32 : ActionType → Int
  | .Unknown => 0
  | .Add => 1
  | .Delete => 2
  | .Update => 3

/-- The catalog database state: the `files` and `history` tables. -/
structure Db where
  files : List FileRecord
  history : List HistoryRow
  deriving Repr, DecidableEq

def Db.empty : Db := ⟨[], []⟩

/-! ### Catalog batch operations (`database.rs`)

Each `Database::batch_*` method opens one transaction, loops over the
records interleaving a history INSERT with the files-table statement, and
commits.  The embedding applies the per-record step sequentially; a whole
call is one atomic `Db → Db` application, matching the commit-or-rollback
semantics of the transaction. -/

/-- One iteration of the loop in `Database::batch_insert_file_records`:
INSERT a history row (`Add`) and INSERT the files row. -/
def insertOneRecord (action_id : Int) (now : Int) (db : Db)
    (r : String × String × Int) : Db :=
  let (file_path, b3sum, file_size) := r
  { files := db.files ++
      [⟨file_path, now, now, none, b3sum, file_size⟩],
    history := db.history ++
      [⟨action_id, ActionType.Add.to_i32, file_path, some b3sum, some file_size, none⟩] }

/-- `Database::batch_insert_file_records`. -/
def batch_insert_file_records (action_id : Int)
    (records : List (String × String × Int)) (now : Int) (db : Db) : Db :=
  records.foldl (insertOneRecord action_id now) db

/-- One iteration of the loop in `Database::batch_delete_file_records`:
INSERT a history row (`Delete`) and DELETE the files row by path. -/
def deleteOneRecord (action_id : Int) (db : Db)
    (r : String × String × Int) : Db :=
  let (file_path, b3sum, file_size) := r
  { files := db.files.filter (fun f => f.path ≠ file_path),
    history := db.history ++
      [⟨action_id, ActionType.Delete.to_i32, file_path, some b3sum, some file_size, none⟩] }

/-- `Database::batch_delete_file_records`. -/
def batch_delete_file_records (action_id : Int)
    (records : List (String × String × Int)) (db : Db) : Db :=
  records.foldl (deleteOneRecord action_id) db

/-- One iteration of the loop in `Database::batch_update_file_records`:
INSERT a history row (`Update`, metadata left NULL) and UPDATE the files
row (new b3sum and size, `updated_at = now`, `last_checked = NULL`). -/
def updateOneRecord (action_id : Int) (now : Int) (db : Db)
    (r : String × String × Int) : Db :=
  let (file_path, b3sum, file_size) := r
  { files := db.files.map (fun f =>
      if f.path = file_path then
        { f with b3sum := b3sum, size := file_size,
                 updated_at := now, last_checked := none }
      else f),
    history := db.history ++
      [⟨action_id, ActionType.Update.to_i32, file_path, some b3sum, some file_size, none⟩] }

/-- `Database::batch_update_file_records`. -/
def batch_update_file_records (action_id : Int)
    (records : List (String × String × Int)) (now : Int) (db : Db) : Db :=
  records.foldl (updateOneRecord action_id now) db

/-- `Database::rename_file_record`: UPDATE the files row's path and
`updated_at`; the method runs no history INSERT and opens no transaction. -/
def rename_file_record (old_path new_path : String) (now : Int) (db : Db) : Db :=
  { db with files := db.files.map (fun f =>
      if f.path = old_path then { f with path := new_path, updated_at := now } else f) }

/-- `Database::update_last_checked`: UPDATE the files row's
`last_checked` to the current timestamp; no history INSERT. -/
def update_last_checked (file_path : String) (now : Int) (db : Db) : Db :=
  { db with files := db.files.map (fun f =>
      if f.path = file_path then { f with last_checked := some now } else f) }

/-! ### Object store paths (`Database::get_object_path`) -/

/-- Rust byte-range slicing `&s[a..b]`: `None` models the out-of-bounds
panic.  Fingerprints are ASCII hex, so bytes coincide with characters. -/
def rustSlice (s : String) (a b : Nat) : Option String :=
  if a ≤ b ∧ b ≤ s.length then some (((s.toList.drop a).take (b - a)).asString)
  else none

/-- `Database::get_object_path`, with the repo root as a component list and
`None` modelling a slicing panic. -/
def get_object_path (repo_root : List String) (b3sum : String) :
    Option (List String) :=
  if b3sum.length < 4 then
    some (repo_root ++ [".ddrive", "objects", b3sum])
  else
    match rustSlice b3sum 0 2, rustSlice b3sum 2 4 with
    | some dir1, some dir2 =>
        some (repo_root ++ [".ddrive", "objects", dir1, dir2, b3sum])
    | _, _ => none

/-! ### Orphan sweep (`Database::find_orphaned_objects`) -/

/-- A directory entry under `objects/`, as visited by
`Database::scan_objects_directory`: either a plain file or a
subdirectory with its own entries, in `read_dir` order. -/
inductive ObjEntry where
  | file (name : String)
  | dir (entries : List ObjEntry)
  deriving Repr

/-- `Database::scan_objects_directory`: recurse into subdirectories and
collect every file whose name is not in the referenced set. -/
def scan_objects_directory (referenced : List String) :
    List ObjEntry → List String
  | [] => []
  | .file name :: rest =>
      (if name ∈ referenced then [] else [name]) ++
        scan_objects_directory referenced rest
  | .dir entries :: rest =>
      scan_objects_directory referenced entries ++
        scan_objects_directory referenced rest

/-- All file names appearing anywhere under a list of entries. -/
def allObjectFiles : List ObjEntry → List String
  | [] => []
  | .file name :: rest => name :: allObjectFiles rest
  | .dir entries :: rest => allObjectFiles entries ++ allObjectFiles rest

/-- The referenced-checksum set built by `find_orphaned_objects`:
`SELECT b3sum FROM files UNION SELECT b3sum FROM history WHERE b3sum IS
NOT NULL` (DISTINCT only dedupes; membership is unaffected). -/
def referencedChecksums (db : Db) : List String :=
  db.files.map (·.b3sum) ++ db.history.filterMap (·.b3sum)

/-- `Database::find_orphaned_objects`: scan the objects tree against the
referenced set drawn from the catalog and history. -/
def find_orphaned_objects (db : Db) (objectsDir : List ObjEntry) : List String :=
  scan_objects_directory (referencedChecksums db) objectsDir

/-! ### Errors (`error.rs`) -/

/-- `DdriveError`; wrapped external error types are carried as their
display strings. -/
inductive DdriveErrorM where
  | InvalidDirectory
  | InvalidPath (inner : String)
  | Database (inner : String)
  | Io (inner : String)
  | FileSystem (message : String)
  | HardLink (message : String)
  | Checksum (message : String)
  | Repository (message : String)
  | Validation (message : String)
  | SqlxMigration (inner : String)
  | IgnorePattern (message : String)
  | GlobPattern (inner : String)
  | PermissionDenied (message : String)
  | Configuration (message : String)
  | UserCancelled
  deriving Repr, DecidableEq

/-- `DdriveError::exit_code`. -/
def DdriveErrorM.exit_code : DdriveErrorM → Int
  | .Repository _ => 2
  | .Database _ | .SqlxMigration _ => 3
  | .FileSystem _ | .InvalidDirectory | .InvalidPath _ => 4
  | .HardLink _ => 4
  | .Checksum _ => 5
  | .Validation _ => 6
  | .IgnorePattern _ | .GlobPattern _ => 7
  | .Io _ => 8
  | .PermissionDenied _ => 9
  | .Configuration _ => 10
  | .UserCancelled => 11

/-! ### Scanner output (`scanner.rs` / `utils/mod.rs`)

The `FileInfo` variant consumed by `utils/mod.rs` carries `created` and
an optional `b3sum` (the `scanner.rs` file in the tree is an older
variant without them; the fields and their uses are reconstructed from
`utils/mod.rs` and `utils/tests.rs`).  `modified` and `created` are
seconds relative to the Unix epoch; negative values model `SystemTime`s
before the epoch, for which `duration_since(UNIX_EPOCH)` fails. -/

structure FileInfo where
  path : String
  size : Nat
  modified : Int
  created : Int
  b3sum : Option String
  deriving Repr, DecidableEq

/-- Modelled from the spec: the `From<&FileRecord> for FileInfo` impl of
the evolved scanner variant is absent from the tree.  The older variant
sets `modified` from `updated_at`; the fingerprint is carried over
(deleted files reuse it downstream) and `created` mirrors `created_at`. -/
def recordToFileInfo (r : FileRecord) : FileInfo :=
  { path := r.path, size := i64AsU64 r.size,
    modified := (i64AsU64 r.updated_at : Nat), created := r.created_at,
    b3sum := some r.b3sum }

/-! ### Parallel checksum fan-out (`FileProcessor::calculate_checksums_parallel`)

The checksum computation is an oracle `calcChecksum`; the rayon `par_iter`
preserves input order in its collected result, so the fan-out is
embedded as an order-preserving traversal. -/

def calculate_checksums_parallel (calcChecksum : String → Except DdriveErrorM String)
    (files : List FileInfo) : List (String × String × Int) :=
  let parts := files.partition (fun f => f.b3sum.isSome)
  let results := parts.1.map (fun f => (f.path, f.b3sum.getD "", u64AsI64 f.size))
  let calculated := parts.2.filterMap (fun f =>
    match calcChecksum f.path with
    | .ok checksum => some (f.path, checksum, u64AsI64 f.size)
    | .error _ => none)
  results ++ calculated

/-! ### Change detector (`FileProcessor::detect_changes`) -/

/-- The per-path lookup map over tracked files.  The Rust code builds a
`HashMap` by inserting every record keyed by path, so a later duplicate
path overwrites an earlier one; catalog paths are unique in practice. -/
def trackedLookup (tracked : List FileRecord) (p : String) : Option FileRecord :=
  tracked.reverse.find? (fun r => r.path = p)

/-- The reuse-or-compute checksum step of the `detect_changes` loop
body: an existing fingerprint on the `FileInfo` is reused, otherwise the
checksum oracle runs on the file's path. -/
def effectiveChecksum (calcChecksum : String → Except DdriveErrorM String)
    (f : FileInfo) : Except DdriveErrorM String :=
  match f.b3sum with
  | some existing_checksum => Except.ok existing_checksum
  | none => calcChecksum f.path

/-- Classification of one scanned file by the loop body of
`detect_changes`. -/
inductive ScanClass where
  | unchanged
  | newFile (f : FileInfo)
  | changedFile (f : FileInfo)
  deriving Repr, DecidableEq

/-- The loop body of `detect_changes` for one scanned file: no tracked
match means new; matching size with mtime at or before `updated_at` is
dropped; otherwise checksum mode compares fingerprints (reusing one
already on the `FileInfo`) and lightweight mode emits the file as
changed with its checksum cleared. -/
def scanStep (lookup : String → Option FileRecord)
    (calcChecksum : String → Except DdriveErrorM String) (use_checksums : Bool)
    (f : FileInfo) : Except DdriveErrorM ScanClass :=
  match lookup f.path with
  | none => .ok (.newFile f)
  | some record =>
    if f.modified < 0 then
      .error (.FileSystem "Invalid modification time")
    else
      let modified_time := f.modified.toNat
      if f.size = i64AsU64 record.size ∧ modified_time ≤ i64AsU64 record.updated_at then
        .ok .unchanged
      else if use_checksums then
        match effectiveChecksum calcChecksum f with
        | .error e => .error e
        | .ok current_checksum =>
          if current_checksum ≠ record.b3sum then
            .ok (.changedFile { f with b3sum := some current_checksum })
          else
            .ok .unchanged
      else
        .ok (.changedFile { f with b3sum := none })

/-- The scanned-files loop of `detect_changes`, accumulating the `new`
and `changed` lists in input order and aborting at the first error. -/
def scanLoop (lookup : String → Option FileRecord)
    (calcChecksum : String → Except DdriveErrorM String) (use_checksums : Bool) :
    List FileInfo → Except DdriveErrorM (List FileInfo × List FileInfo)
  | [] => .ok ([], [])
  | f :: rest =>
    match scanStep lookup calcChecksum use_checksums f with
    | .error e => .error e
    | .ok cls =>
      match scanLoop lookup calcChecksum use_checksums rest with
      | .error e => .error e
      | .ok (ns, cs) =>
        match cls with
        | .unchanged => .ok (ns, cs)
        | .newFile g => .ok (g :: ns, cs)
        | .changedFile g => .ok (ns, g :: cs)

/-- Sequentially attach checksums to the files missing one
(`FileProcessor::ensure_checksums_for_files`); the parallel branch for
more than ten files produces the same list. -/
def calcAllChecksums (calcChecksum : String → Except DdriveErrorM String) :
    List FileInfo → Except DdriveErrorM (List FileInfo)
  | [] => .ok []
  | f :: rest =>
    match calcChecksum f.path with
    | .error e => .error e
    | .ok checksum =>
      match calcAllChecksums calcChecksum rest with
      | .error e => .error e
      | .ok rest' => .ok ({ f with b3sum := some checksum } :: rest')

/-- `FileProcessor::ensure_checksums_for_files`: files that already have
a checksum come first, then the freshly computed ones. -/
def ensure_checksums_for_files (calcChecksum : String → Except DdriveErrorM String)
    (files : List FileInfo) : Except DdriveErrorM (List FileInfo) :=
  let parts := files.partition (fun f => f.b3sum.isSome)
  match calcAllChecksums calcChecksum parts.2 with
  | .error e => .error e
  | .ok calculated => .ok (parts.1 ++ calculated)

/-- Append a file to the bucket of its key, creating the bucket at the
end when the key is new (`map.entry(key).or_default().push(file)`). -/
def insertByKey {κ : Type} [DecidableEq κ] (k : κ) (f : FileInfo) :
    List (κ × List FileInfo) → List (κ × List FileInfo)
  | [] => [(k, [f])]
  | (k', fs) :: rest =>
    if k' = k then (k', fs ++ [f]) :: rest
    else (k', fs) :: insertByKey k f rest

/-- Bucket files by a key, keeping buckets in first-encounter order and
files within a bucket in input order.  This is the deterministic
stand-in for the `HashMap` grouping: the claims proved below do not
depend on the map's iteration order over distinct keys. -/
def groupBy {κ : Type} [DecidableEq κ] (key : FileInfo → κ) :
    List (κ × List FileInfo) → List FileInfo → List (κ × List FileInfo)
  | m, [] => m
  | m, f :: rest => groupBy key (insertByKey (key f) f m) rest

/-- Bucket lookup by key in the grouped map. -/
def lookupKey {κ : Type} [DecidableEq κ] (m : List (κ × List FileInfo))
    (k : κ) : Option (List FileInfo) :=
  match m.find? (fun p => p.1 = k) with
  | some p => some p.2
  | none => none

/-- The rename key of the lightweight mode: `(size,
creation_time_seconds)`, where the creation time is unavailable for
pre-epoch `SystemTime`s (`duration_since(UNIX_EPOCH).ok()`). -/
def creation_time_secs (f : FileInfo) : Option Nat :=
  if 0 ≤ f.created then some f.created.toNat else none

def metadataKey (f : FileInfo) : Nat × Option Nat :=
  (f.size, creation_time_secs f)

/-- `FileProcessor::find_potential_renames_by_metadata`: bucket the
deleted and the new files by `(size, creation_time_secs)`; for each
deleted bucket whose key also has a new bucket, pair the first deleted
file with the first new file (checksum cleared). -/
def find_potential_renames_by_metadata (deleted_files new_files : List FileInfo) :
    List (FileInfo × FileInfo) :=
  let deleted_by_key := groupBy metadataKey [] deleted_files
  let new_by_key := groupBy metadataKey [] new_files
  deleted_by_key.filterMap (fun p =>
    match lookupKey new_by_key p.1 with
    | some new_group =>
      match p.2.head?, new_group.head? with
      | some deleted, some newF => some (deleted, { newF with b3sum := none })
      | _, _ => none
    | none => none)

/-- Modelled from the spec: `Database::find_potential_renames` (the full,
fingerprint-keyed rename detection) is called from
`FileProcessor::detect_changes` but absent from the tree.  Per the spec,
bucket deleted and new files by fingerprint and, for each common
fingerprint with matching size, pair one deleted with one new
(deterministic first-match). -/
def find_potential_renames (deleted_files new_files : List FileInfo) :
    List (FileInfo × FileInfo) :=
  let deleted_by_sum := groupBy (fun f => f.b3sum) [] deleted_files
  let new_by_sum := groupBy (fun f => f.b3sum) [] new_files
  deleted_by_sum.filterMap (fun p =>
    match lookupKey new_by_sum p.1 with
    | some new_group =>
      match p.2.head?, new_group.head? with
      | some deleted, some newF =>
        if deleted.size = newF.size then some (deleted, newF) else none
      | _, _ => none
    | none => none)

/-- `FileProcessor::detect_changes`: compute the deleted list from
tracked paths missing in the scan, classify every scanned file, run
rename detection (full or lightweight), and drop the renamed pairs from
the new and deleted lists.  Returns `(new, changed, deleted, renames)`. -/
def detect_changes (calcChecksum : String → Except DdriveErrorM String)
    (scanned_files : List FileInfo) (tracked_files : List FileRecord)
    (use_checksums : Bool) :
    Except DdriveErrorM
      (List FileInfo × List FileInfo × List FileInfo ×
        List (FileInfo × FileInfo)) :=
  let deleted_files :=
    (tracked_files.filter (fun t =>
      ¬ scanned_files.any (fun s => s.path = t.path))).map recordToFileInfo
  match scanLoop (trackedLookup tracked_files) calcChecksum use_checksums scanned_files with
  | .error e => .error e
  | .ok (new_files, changed_files) =>
    let renamesResult :=
      if use_checksums then
        match ensure_checksums_for_files calcChecksum new_files with
        | .error e => Except.error e
        | .ok new_files_with_checksums =>
          Except.ok (find_potential_renames deleted_files new_files_with_checksums)
      else
        Except.ok (find_potential_renames_by_metadata deleted_files new_files)
    match renamesResult with
    | .error e => .error e
    | .ok potential_renames =>
      let rename_new_paths := potential_renames.map (fun p => p.2.path)
      let rename_old_paths := potential_renames.map (fun p => p.1.path)
      .ok (new_files.filter (fun f => f.path ∉ rename_new_paths),
           changed_files,
           deleted_files.filter (fun f => f.path ∉ rename_old_paths),
           potential_renames)

/-! ### Verifier (`cli/verify.rs`)

Filesystem reads are an oracle keyed by the catalog's repo-relative
path (`resolve_absolute_path` only prefixes the repo root, so the keying
is a bijection). -/

/-- The filesystem metadata read by `check_metadata_changes`:
`metadata.len()` and `metadata.modified()` (absent when the platform
call fails; pre-epoch times are negative and make
`duration_since(UNIX_EPOCH)` fail). -/
structure FsMeta where
  size : Nat
  modified : Option Int
  deriving Repr, DecidableEq

/-- Filesystem view: `path.exists()` and `fs::metadata` (`none` models a
metadata read error). -/
structure FsView where
  pathExists : String → Bool
  metaOf : String → Option FsMeta

/-- `VerifyCommand::check_metadata_changes`; `none` is the `Err` return
on a failed metadata read.  A size difference short-circuits; otherwise
an unavailable or pre-epoch mtime counts as changed, and an available
one is compared against `updated_at` with one second of tolerance. -/
def check_metadata_changes (fs : FsView) (file_path : String)
    (file_record : FileRecord) : Option Bool :=
  match fs.metaOf file_path with
  | none => none
  | some m =>
    let size_changed := m.size ≠ i64AsU64 file_record.size
    if size_changed then some true
    else
      let modified_time_changed :=
        match m.modified with
        | none => true
        | some t => if t < 0 then true else (t - file_record.updated_at).natAbs > 1
      some (size_changed || modified_time_changed)

structure VerificationResult where
  passed : Bool
  actual_checksum : String
  deriving Repr, DecidableEq

/-- `VerifyCommand::verify_file`: a missing file is an error; unless
forced, an unchanged-metadata pre-check passes without hashing; otherwise
the fingerprint is recomputed and compared to the catalog. -/
def verify_file (fs : FsView) (calcChecksum : String → Except DdriveErrorM String)
    (force : Bool) (file_record : FileRecord) :
    Except DdriveErrorM VerificationResult :=
  if ¬ fs.pathExists file_record.path then
    .error (.FileSystem ("File no longer exists: " ++ file_record.path))
  else
    let metadata_unchanged :=
      if force then false
      else
        match check_metadata_changes fs file_record.path file_record with
        | some false => true
        | _ => false
    if metadata_unchanged then
      .ok ⟨true, file_record.b3sum⟩
    else
      match calcChecksum file_record.path with
      | .error e => .error e
      | .ok actual_checksum =>
        .ok ⟨actual_checksum = file_record.b3sum, actual_checksum⟩

/-- Aggregated sweep counters (`VerifyResult` in `cli/verify.rs`);
failures carry `(path, expected, actual)`. -/
structure VerifyResultM where
  checked_files : Nat
  passed_files : Nat
  failed_files : Nat
  skipped_files : Nat
  failures : List (String × String × String)
  deriving Repr, DecidableEq

/-- The candidate loop of `VerifyCommand::execute`: per file, a passed
verification bumps `checked`/`passed` and emits an `update_last_checked`
for the file's path (a failure of that update is only logged); a failed
verification bumps `checked`/`failed` and records the mismatch; an error
from `verify_file` bumps only `failed`.  Returns the aggregate and the
paths whose `last_checked` the sweep updates, in iteration order. -/
def verify_sweep (fs : FsView) (calcChecksum : String → Except DdriveErrorM String)
    (force : Bool) : List FileRecord → VerifyResultM × List String
  | [] => (⟨0, 0, 0, 0, []⟩, [])
  | file_record :: rest =>
    let (res, upds) := verify_sweep fs calcChecksum force rest
    match verify_file fs calcChecksum force file_record with
    | .ok vr =>
      if vr.passed then
        (⟨res.checked_files + 1, res.passed_files + 1, res.failed_files,
          res.skipped_files, res.failures⟩,
         file_record.path :: upds)
      else
        (⟨res.checked_files + 1, res.passed_files, res.failed_files + 1,
          res.skipped_files,
          (file_record.path, file_record.b3sum, vr.actual_checksum) :: res.failures⟩,
         upds)
    | .error _ =>
      (⟨res.checked_files, res.passed_files, res.failed_files + 1,
        res.skipped_files, res.failures⟩,
       upds)

/-- The `Verify` arm of `run_command` (`cli/mod.rs`): a nonzero failure
count after the sweep is turned into a `Validation` error; an error from
`execute` itself propagates. -/
def run_verify_command (execResult : Except DdriveErrorM VerifyResultM) :
    Except DdriveErrorM Unit :=
  match execResult with
  | .error e => .error e
  | .ok result =>
    if result.failed_files > 0 then
      .error (.Validation "file(s) failed integrity verification")
    else
      .ok ()

/-! ### Object-store ingest (`utils/cow.rs`, `add.rs`) -/

deriving instance DecidableEq for Except

/-- Per-file object-store environment for `copy_to_object_store`:
existence checks and the outcomes of the fallible filesystem calls. -/
structure ObjEnv where
  object_dir_exists : Bool
  create_dir_ok : Bool
  object_exists : Bool
  reflink_result : Except String Unit
  copy_result : Except String Unit
  deriving Repr, DecidableEq

/-- `cow_copy` (`utils/cow.rs`): try the reflink; on failure fall back to
`fs::copy`; a failed fallback is a `FileSystem` error. -/
def cow_copy (reflink_result copy_result : Except String Unit) :
    Except DdriveErrorM Unit :=
  match reflink_result with
  | .ok _ => .ok ()
  | .error _ =>
    match copy_result with
    | .ok _ => .ok ()
    | .error e => .error (.FileSystem ("Failed to copy file to object store: " ++ e))

/-- `AddCommand::copy_to_object_store` (`add.rs`): create the shard
directory when missing, succeed silently when the object exists, then
call `cow_copy` — whose `Err` arm only logs and falls through, so the
function returns `Ok` either way.  (The shard-path computation from the
checksum has no control-flow effect and is omitted.) -/
def copy_to_object_store (env : ObjEnv) : Except DdriveErrorM Unit :=
  if ¬ env.object_dir_exists ∧ ¬ env.create_dir_ok then
    .error (.FileSystem "Failed to create object directory")
  else if env.object_exists then
    .ok ()
  else
    match cow_copy env.reflink_result env.copy_result with
    | .ok _ => .ok ()
    | .error _ => .ok ()

/-- The per-file loop of `AddCommand::process_new_files` (`add.rs`) over
the zip of the files with their fan-out checksums: an object-store
failure is counted and skips the catalog write; otherwise the file's
records are inserted through `batch_insert_file_records`. -/
def processNewLoop (action_id : Int) (now : Int) (env : String → ObjEnv) :
    List (FileInfo × (String × String × Int)) → Db → Nat × Db
  | [], db => (0, db)
  | (file_info, checksum) :: rest, db =>
    match copy_to_object_store (env file_info.path) with
    | .error _ =>
      let (failed_count, db') := processNewLoop action_id now env rest db
      (failed_count + 1, db')
    | .ok _ =>
      processNewLoop action_id now env rest
        (batch_insert_file_records action_id [checksum] now db)

/-- `AddCommand::process_new_files` (`add.rs`): fan out the checksums,
then walk the files zipped with them. -/
def process_new_files (action_id : Int)
    (calcChecksum : String → Except DdriveErrorM String) (env : String → ObjEnv)
    (now : Int) (files : List FileInfo) (db : Db) : Nat × Db :=
  processNewLoop action_id now env
    (files.zip (calculate_checksums_parallel calcChecksum files)) db

/-! ### Batch rename (`cli/add.rs` → `Database::batch_rename_files`) -/

/-- Modelled from the spec: the `Rename` member of `ActionType` is absent
from the `database.rs` in the tree; the spec lists it after `Update`, so
its code follows `Update = 3`. -/
def renameActionCode : Int := 4

/-- Modelled from the spec: the JSON metadata of a Rename history row,
`\x7b"old_path": …\x7d`. -/
def renameMetadata (old_path : String) : String :=
  "\x7b\"old_path\":\"" ++ old_path ++ "\"\x7d"

/-- Modelled from the spec: one pair of `Database::batch_rename_files`
(called from `AddCommand::process_renames` in `cli/add.rs` but absent
from the tree).  Look up the old record; if absent skip the pair;
otherwise INSERT a Rename history row (path = new path, metadata with
the old path, unchanged fingerprint and size) and UPDATE the files row's
path. -/
def renameOnePair (action_id : Int) (db : Db) (pair : String × String) : Db :=
  let (old_path, new_path) := pair
  match db.files.find? (fun f => f.path = old_path) with
  | none => db
  | some r =>
    { files := db.files.map (fun f =>
        if f.path = old_path then { f with path := new_path } else f),
      history := db.history ++
        [⟨action_id, renameActionCode, new_path, some r.b3sum, some r.size,
          some (renameMetadata old_path)⟩] }

/-- Modelled from the spec: `Database::batch_rename_files` processes the
pairs in order. -/
def batch_rename_files (action_id : Int) (pairs : List (String × String))
    (db : Db) : Db :=
  pairs.foldl (renameOnePair action_id) db

/-! ### Per-record verify outcomes (classification helpers) -/

/-- The record's `verify_file` call passes. -/
def verifyPassed (fs : FsView) (calcChecksum : String → Except DdriveErrorM String)
    (force : Bool) (r : FileRecord) : Bool :=
  match verify_file fs calcChecksum force r with
  | .ok vr => vr.passed
  | .error _ => false

/-- The record's `verify_file` call completes with a mismatch. -/
def verifyMismatched (fs : FsView) (calcChecksum : String → Except DdriveErrorM String)
    (force : Bool) (r : FileRecord) : Bool :=
  match verify_file fs calcChecksum force r with
  | .ok vr => !vr.passed
  | .error _ => false

/-- The record's `verify_file` call returns an error (missing file or
failed checksum read). -/
def verifyErrored (fs : FsView) (calcChecksum : String → Except DdriveErrorM String)
    (force : Bool) (r : FileRecord) : Bool :=
  match verify_file fs calcChecksum force r with
  | .ok _ => false
  | .error _ => true

/-! ## Theorems -/

/-- C10: `get_object_path` is total: a fingerprint of length at least
four is sharded into `.ddrive/objects/<first two>/<next two>/<sum>`, a
shorter one takes the unsharded fallback path, and neither branch can
hit the out-of-bounds slicing panic. -/
theorem get_object_path_total (repo_root : List String) (b3sum : String) :
    get_object_path repo_root b3sum =
      some (repo_root ++ [".ddrive", "objects"] ++
        (if b3sum.length < 4 then [b3sum]
         else [(b3sum.toList.take 2).asString,
               ((b3sum.toList.drop 2).take 2).asString, b3sum])) := by
  unfold get_object_path rustSlice
  by_cases h : b3sum.length < 4
  · simp [h]
  · have h1 : (0 : Nat) ≤ 2 ∧ 2 ≤ b3sum.length := ⟨by omega, by omega⟩
    have h2 : (2 : Nat) ≤ 4 ∧ 4 ≤ b3sum.length := ⟨by omega, by omega⟩
    rw [if_neg h, if_pos h1, if_pos h2]
    simp [h]

/-- Soundness of the recursive objects-directory scan: a name is
reported exactly when it is the name of some file at some depth and is
unreferenced. -/
theorem mem_scan_objects_directory (referenced : List String)
    (entries : List ObjEntry) (name : String) :
    name ∈ scan_objects_directory referenced entries ↔
      name ∈ allObjectFiles entries ∧ name ∉ referenced := by
  induction entries using scan_objects_directory.induct referenced with
  | case1 => simp [scan_objects_directory, allObjectFiles]
  | case2 fname rest ih =>
    by_cases h : fname ∈ referenced
    · by_cases hn : name = fname
      · subst hn
        simp [scan_objects_directory, allObjectFiles, h, ih]
      · simp [scan_objects_directory, allObjectFiles, h, hn, ih]
    · by_cases hn : name = fname
      · subst hn
        simp [scan_objects_directory, allObjectFiles, h, ih]
      · simp [scan_objects_directory, allObjectFiles, h, hn, ih]
  | case3 sub rest ih1 ih2 =>
    simp [scan_objects_directory, allObjectFiles, ih1, ih2]
    tauto

/-- C7: the orphan sweep reports an object file found at any shard depth
exactly when its name is the fingerprint of no files-table row and of no
history row with a non-null fingerprint. -/
theorem find_orphaned_objects_iff (db : Db) (objectsDir : List ObjEntry)
    (name : String) :
    name ∈ find_orphaned_objects db objectsDir ↔
      name ∈ allObjectFiles objectsDir ∧
        (∀ f ∈ db.files, f.b3sum ≠ name) ∧
        (∀ h ∈ db.history, h.b3sum ≠ some name) := by
  unfold find_orphaned_objects
  rw [mem_scan_objects_directory]
  simp only [referencedChecksums, List.mem_append, List.mem_map,
    List.mem_filterMap, not_or, not_exists, not_and]

theorem batch_insert_history_eq (action_id now : Int)
    (records : List (String × String × Int)) (db : Db) :
    (batch_insert_file_records action_id records now db).history =
      db.history ++ records.map (fun r =>
        (⟨action_id, ActionType.Add.to_i32, r.1, some r.2.1, some r.2.2,
          none⟩ : HistoryRow)) := by
  induction records generalizing db with
  | nil => simp [batch_insert_file_records]
  | cons r rest ih =>
    simp only [batch_insert_file_records, List.foldl_cons] at ih ⊢
    rw [ih]
    simp [insertOneRecord]

theorem batch_update_history_eq (action_id now : Int)
    (records : List (String × String × Int)) (db : Db) :
    (batch_update_file_records action_id records now db).history =
      db.history ++ records.map (fun r =>
        (⟨action_id, ActionType.Update.to_i32, r.1, some r.2.1, some r.2.2,
          none⟩ : HistoryRow)) := by
  induction records generalizing db with
  | nil => simp [batch_update_file_records]
  | cons r rest ih =>
    simp only [batch_update_file_records, List.foldl_cons] at ih ⊢
    rw [ih]
    simp [updateOneRecord]

theorem batch_delete_history_eq (action_id : Int)
    (records : List (String × String × Int)) (db : Db) :
    (batch_delete_file_records action_id records db).history =
      db.history ++ records.map (fun r =>
        (⟨action_id, ActionType.Delete.to_i32, r.1, some r.2.1, some r.2.2,
          none⟩ : HistoryRow)) := by
  induction records generalizing db with
  | nil => simp [batch_delete_file_records]
  | cons r rest ih =>
    simp only [batch_delete_file_records, List.foldl_cons] at ih ⊢
    rw [ih]
    simp [deleteOneRecord]

/-- C1 (amended): the batch insert, update and delete operations insert,
inside their transaction, exactly one history row per files-table
mutation, and every inserted row carries the operation's `action_id`;
but the path-rename mutation (`rename_file_record`) and the
`last_checked` stamp (`update_last_checked`) leave the history table
untouched, so not every files-table change has a matching history row. -/
theorem batch_mutations_history_pairing (action_id now : Int)
    (records : List (String × String × Int))
    (old_path new_path file_path : String) (db : Db) :
    ((batch_insert_file_records action_id records now db).history =
      db.history ++ records.map (fun r =>
        ⟨action_id, ActionType.Add.to_i32, r.1, some r.2.1, some r.2.2, none⟩)) ∧
    ((batch_update_file_records action_id records now db).history =
      db.history ++ records.map (fun r =>
        ⟨action_id, ActionType.Update.to_i32, r.1, some r.2.1, some r.2.2, none⟩)) ∧
    ((batch_delete_file_records action_id records db).history =
      db.history ++ records.map (fun r =>
        ⟨action_id, ActionType.Delete.to_i32, r.1, some r.2.1, some r.2.2, none⟩)) ∧
    ((rename_file_record old_path new_path now db).history = db.history) ∧
    ((update_last_checked file_path now db).history = db.history) :=
  ⟨batch_insert_history_eq action_id now records db,
   batch_update_history_eq action_id now records db,
   batch_delete_history_eq action_id records db,
   rfl, rfl⟩

/-- C1 (counterexample): renaming the path of a tracked file through
`rename_file_record` changes the files table but inserts no history row
at all, so a files-table change can exist without a matching history
row. -/
theorem rename_file_record_mutates_without_history :
    (rename_file_record "a.txt" "b.txt" 20
        (batch_insert_file_records 100 [("a.txt", "h1", 5)] 10 Db.empty)).files ≠
      (batch_insert_file_records 100 [("a.txt", "h1", 5)] 10 Db.empty).files ∧
    (rename_file_record "a.txt" "b.txt" 20
        (batch_insert_file_records 100 [("a.txt", "h1", 5)] 10 Db.empty)).history =
      (batch_insert_file_records 100 [("a.txt", "h1", 5)] 10 Db.empty).history := by
  constructor
  · decide
  · rfl

/-- C2: evaluation at the failing input.  When both the reflink and the
fallback copy fail, `cow_copy` returns an error, but
`copy_to_object_store` in `add.rs` swallows it, so `process_new_files`
still inserts the files row and the history row for that file and
reports zero failed files — the per-file catalog transaction is not
aborted and the failure is not counted. -/
theorem object_store_failure_not_counted :
    cow_copy (Except.error "reflink failed") (Except.error "copy failed") =
      Except.error
        (DdriveErrorM.FileSystem
          "Failed to copy file to object store: copy failed") ∧
    process_new_files 100 (fun _ => Except.ok "aa11")
        (fun _ => ⟨true, true, false, Except.error "reflink failed",
                   Except.error "copy failed"⟩) 10
        [⟨"a.txt", 5, 50, 40, none⟩] Db.empty =
      (0, ⟨[⟨"a.txt", 10, 10, none, "aa11", 5⟩],
           [⟨100, ActionType.Add.to_i32, "a.txt", some "aa11", some 5, none⟩]⟩) := by
  constructor
  · rfl
  · rfl

/-- C4: for a rename pair whose old path is present in the catalog,
`batch_rename_files` appends exactly one Rename history row — path set
to the new path, metadata carrying the old path, fingerprint and size
taken unchanged from the old record — and updates the files row's path,
leaving every fingerprint in place; a pair whose old path is absent is
skipped entirely. -/
theorem batch_rename_files_pair_spec (action_id : Int)
    (old_path new_path : String) (db : Db) :
    (∀ r, db.files.find? (fun f => f.path = old_path) = some r →
      (batch_rename_files action_id [(old_path, new_path)] db).history =
          db.history ++ [⟨action_id, renameActionCode, new_path, some r.b3sum,
            some r.size, some (renameMetadata old_path)⟩] ∧
      (batch_rename_files action_id [(old_path, new_path)] db).files =
          db.files.map (fun f =>
            if f.path = old_path then { f with path := new_path } else f) ∧
      (batch_rename_files action_id [(old_path, new_path)] db).files.map (·.b3sum) =
          db.files.map (·.b3sum)) ∧
    (db.files.find? (fun f => f.path = old_path) = none →
      batch_rename_files action_id [(old_path, new_path)] db = db) := by
  constructor
  · intro r hr
    refine ⟨?_, ?_, ?_⟩
    · simp [batch_rename_files, renameOnePair, hr]
    · simp [batch_rename_files, renameOnePair, hr]
    · simp only [batch_rename_files, List.foldl_cons, List.foldl_nil,
        renameOnePair, hr]
      rw [List.map_map]
      refine List.map_congr_left (fun f _ => ?_)
      by_cases hp : f.path = old_path <;> simp [hp]
  · intro hnone
    simp [batch_rename_files, renameOnePair, hnone]

/-- Witness for C4 at a one-file catalog: the lookup hypothesis holds
and the rename appends the expected history row. -/
theorem batch_rename_files_pair_spec_witness :
    ((⟨[⟨"a.txt", 1, 1, none, "h1", 5⟩], []⟩ : Db).files.find?
        (fun f => f.path = "a.txt") = some ⟨"a.txt", 1, 1, none, "h1", 5⟩) ∧
    (batch_rename_files 100 [("a.txt", "b.txt")]
        (⟨[⟨"a.txt", 1, 1, none, "h1", 5⟩], []⟩ : Db)).history =
      (⟨[⟨"a.txt", 1, 1, none, "h1", 5⟩], []⟩ : Db).history ++
        [⟨100, renameActionCode, "b.txt", some "h1", some 5,
          some (renameMetadata "a.txt")⟩] :=
  ⟨by decide,
   ((batch_rename_files_pair_spec 100 "a.txt" "b.txt"
      ⟨[⟨"a.txt", 1, 1, none, "h1", 5⟩], []⟩).1
      ⟨"a.txt", 1, 1, none, "h1", 5⟩ (by decide)).1⟩

theorem verify_sweep_counters (fs : FsView)
    (calcChecksum : String → Except DdriveErrorM String) (force : Bool)
    (records : List FileRecord) :
    (verify_sweep fs calcChecksum force records).1.checked_files =
        records.countP (verifyPassed fs calcChecksum force) +
          records.countP (verifyMismatched fs calcChecksum force) ∧
    (verify_sweep fs calcChecksum force records).1.passed_files =
        records.countP (verifyPassed fs calcChecksum force) ∧
    (verify_sweep fs calcChecksum force records).1.failed_files =
        records.countP (verifyMismatched fs calcChecksum force) +
          records.countP (verifyErrored fs calcChecksum force) ∧
    records.countP (verifyPassed fs calcChecksum force) +
        records.countP (verifyMismatched fs calcChecksum force) +
        records.countP (verifyErrored fs calcChecksum force) = records.length := by
  induction records with
  | nil => simp [verify_sweep]
  | cons r rest ih =>
    obtain ⟨ih1, ih2, ih3, ih4⟩ := ih
    cases hv : verify_file fs calcChecksum force r with
    | error e =>
      simp [verify_sweep, hv, List.countP_cons, verifyPassed, verifyMismatched,
        verifyErrored, ih1, ih2, ih3]
      omega
    | ok vr =>
      by_cases hp : vr.passed
      · simp [verify_sweep, hv, hp, List.countP_cons, verifyPassed,
          verifyMismatched, verifyErrored, ih1, ih2, ih3]
        omega
      · simp [verify_sweep, hv, hp, List.countP_cons, verifyPassed,
          verifyMismatched, verifyErrored, ih1, ih2, ih3]
        omega

/-- C6: after a sweep over any candidate list, the `Verify` arm of
`run_command` returns a `Validation` error exactly when the failed count
is nonzero, and `Validation` maps to exit code 6 ≠ 0; moreover no
per-file outcome aborts the sweep: every candidate is counted, with
`checked` plus the errored files covering the whole list and `failed`
counting exactly the mismatched and errored files. -/
theorem run_verify_validation_iff (fs : FsView)
    (calcChecksum : String → Except DdriveErrorM String) (force : Bool)
    (records : List FileRecord) :
    (run_verify_command (Except.ok (verify_sweep fs calcChecksum force records).1) =
        Except.error (DdriveErrorM.Validation "file(s) failed integrity verification") ↔
      0 < (verify_sweep fs calcChecksum force records).1.failed_files) ∧
    (∀ msg, (DdriveErrorM.Validation msg).exit_code = 6 ∧
      (DdriveErrorM.Validation msg).exit_code ≠ 0) ∧
    (verify_sweep fs calcChecksum force records).1.checked_files +
        records.countP (verifyErrored fs calcChecksum force) = records.length ∧
    (verify_sweep fs calcChecksum force records).1.failed_files =
        records.countP (verifyMismatched fs calcChecksum force) +
          records.countP (verifyErrored fs calcChecksum force) := by
  obtain ⟨h1, h2, h3, h4⟩ := verify_sweep_counters fs calcChecksum force records
  refine ⟨?_, fun msg => ⟨rfl, by simp [DdriveErrorM.exit_code]⟩, by omega, h3⟩
  constructor
  · intro heq
    by_contra hf
    have : (verify_sweep fs calcChecksum force records).1.failed_files = 0 := by omega
    simp [run_verify_command, this] at heq
  · intro hf
    simp [run_verify_command, Nat.pos_iff_ne_zero.mp hf, hf]

theorem verify_sweep_failures_mem (fs : FsView)
    (calcChecksum : String → Except DdriveErrorM String) (force : Bool)
    (records : List FileRecord) (r : FileRecord) (actual : String)
    (hr : r ∈ records)
    (hm : verify_file fs calcChecksum force r = .ok ⟨false, actual⟩) :
    (r.path, r.b3sum, actual) ∈
      (verify_sweep fs calcChecksum force records).1.failures := by
  induction records with
  | nil => cases hr
  | cons q rest ih =>
    rcases List.mem_cons.mp hr with heq | hmem
    · subst heq
      simp [verify_sweep, hm]
    · cases hv : verify_file fs calcChecksum force q with
      | error e => simpa [verify_sweep, hv] using ih hmem
      | ok vr =>
        by_cases hp : vr.passed <;>
          simp [verify_sweep, hv, hp, ih hmem]

theorem verify_sweep_updates_iff (fs : FsView)
    (calcChecksum : String → Except DdriveErrorM String) (force : Bool)
    (records : List FileRecord) (p : String) :
    p ∈ (verify_sweep fs calcChecksum force records).2 ↔
      ∃ q ∈ records, q.path = p ∧ verifyPassed fs calcChecksum force q = true := by
  induction records with
  | nil => simp [verify_sweep]
  | cons q rest ih =>
    cases hv : verify_file fs calcChecksum force q with
    | error e =>
      simp only [verify_sweep, hv]
      rw [ih]
      constructor
      · rintro ⟨q', hq', hpath, hpass⟩
        exact ⟨q', List.mem_cons_of_mem q hq', hpath, hpass⟩
      · rintro ⟨q', hq', hpath, hpass⟩
        rcases List.mem_cons.mp hq' with heq | hmem
        · subst heq
          simp [verifyPassed, hv] at hpass
        · exact ⟨q', hmem, hpath, hpass⟩
    | ok vr =>
      by_cases hp : vr.passed
      · simp only [verify_sweep, hv, hp, if_pos]
        simp only [List.mem_cons, ih, List.mem_cons]
        constructor
        · rintro (heq | ⟨q', hq', hpath, hpass⟩)
          · exact ⟨q, Or.inl rfl, heq.symm, by simp [verifyPassed, hv, hp]⟩
          · exact ⟨q', Or.inr hq', hpath, hpass⟩
        · rintro ⟨q', hq' | hq', hpath, hpass⟩
          · subst hq'
            exact Or.inl hpath.symm
          · exact Or.inr ⟨q', hq', hpath, hpass⟩
      · simp only [verify_sweep, hv, hp, if_neg, Bool.not_eq_true]
        rw [ih]
        constructor
        · rintro ⟨q', hq', hpath, hpass⟩
          exact ⟨q', List.mem_cons_of_mem q hq', hpath, hpass⟩
        · rintro ⟨q', hq', hpath, hpass⟩
          rcases List.mem_cons.mp hq' with heq | hmem
          · subst heq
            simp [verifyPassed, hv, hp] at hpass
          · exact ⟨q', hmem, hpath, hpass⟩

/-- C5: a candidate whose verification completes with a checksum
mismatch contributes its `(path, expected, actual)` triple to the
reported failures and receives no `last_checked` update; the sweep's
`last_checked` updates go exactly to paths of candidates whose
verification passed, so a mismatching file's catalog row is left
untouched. -/
theorem verify_mismatch_reported_no_update (fs : FsView)
    (calcChecksum : String → Except DdriveErrorM String) (force : Bool)
    (records : List FileRecord) (r : FileRecord) (actual : String)
    (hnd : (records.map (·.path)).Nodup) (hr : r ∈ records)
    (hm : verify_file fs calcChecksum force r = .ok ⟨false, actual⟩) :
    (r.path, r.b3sum, actual) ∈
        (verify_sweep fs calcChecksum force records).1.failures ∧
    r.path ∉ (verify_sweep fs calcChecksum force records).2 ∧
    (∀ p ∈ (verify_sweep fs calcChecksum force records).2,
      ∃ q ∈ records, q.path = p ∧ verifyPassed fs calcChecksum force q = true) := by
  refine ⟨verify_sweep_failures_mem fs calcChecksum force records r actual hr hm,
    ?_, fun p hp => (verify_sweep_updates_iff fs calcChecksum force records p).mp hp⟩
  intro hmem
  obtain ⟨q, hq, hpath, hpass⟩ :=
    (verify_sweep_updates_iff fs calcChecksum force records r.path).mp hmem
  have hqr : q = r := List.inj_on_of_nodup_map hnd hq hr hpath
  subst hqr
  simp [verifyPassed, hm] at hpass

/-- Witness for C5: one tracked file whose recomputed checksum differs
from the catalog fingerprint is reported and gets no update. -/
theorem verify_mismatch_reported_no_update_witness :
    (([⟨"a.txt", 1, 1, none, "good", 5⟩] : List FileRecord).map (·.path)).Nodup ∧
    (⟨"a.txt", 1, 1, none, "good", 5⟩ : FileRecord) ∈
      ([⟨"a.txt", 1, 1, none, "good", 5⟩] : List FileRecord) ∧
    verify_file ⟨fun _ => true, fun _ => none⟩ (fun _ => Except.ok "bad") true
        ⟨"a.txt", 1, 1, none, "good", 5⟩ = .ok ⟨false, "bad"⟩ ∧
    ("a.txt", "good", "bad") ∈
      (verify_sweep ⟨fun _ => true, fun _ => none⟩ (fun _ => Except.ok "bad") true
        [⟨"a.txt", 1, 1, none, "good", 5⟩]).1.failures :=
  ⟨by simp, by simp, by decide,
   (verify_mismatch_reported_no_update ⟨fun _ => true, fun _ => none⟩
      (fun _ => Except.ok "bad") true [⟨"a.txt", 1, 1, none, "good", 5⟩]
      ⟨"a.txt", 1, 1, none, "good", 5⟩ "bad" (by simp) (by simp) (by decide)).1⟩

/-- C9: in the checksum fan-out, a file needing computation whose
checksum fails is dropped (no tuple with its path is returned), while
every file with a reused checksum and every successfully hashed file
contributes its `(path, fingerprint, size)` tuple; the fan-out is a
total function, so one failure never aborts the batch. -/
theorem calculate_checksums_parallel_spec
    (calcChecksum : String → Except DdriveErrorM String) (files : List FileInfo)
    (f : FileInfo) (hnd : (files.map (·.path)).Nodup) (hf : f ∈ files) :
    (f.b3sum = none → (∃ e, calcChecksum f.path = Except.error e) →
      ∀ x ∈ calculate_checksums_parallel calcChecksum files, x.1 ≠ f.path) ∧
    (∀ c, f.b3sum = some c →
      (f.path, c, u64AsI64 f.size) ∈ calculate_checksums_parallel calcChecksum files) ∧
    (∀ c, f.b3sum = none → calcChecksum f.path = Except.ok c →
      (f.path, c, u64AsI64 f.size) ∈ calculate_checksums_parallel calcChecksum files) := by
  refine ⟨?_, ?_, ?_⟩
  · rintro hb ⟨e, he⟩ x hx heq
    simp only [calculate_checksums_parallel, List.partition_eq_filter_filter,
      List.mem_append, List.mem_map, List.mem_filterMap, List.mem_filter] at hx
    rcases hx with ⟨g, ⟨hg, hgs⟩, hxg⟩ | ⟨g, ⟨hg, hgs⟩, hxg⟩
    · have hpath : g.path = f.path := by rw [← heq, ← hxg]
      have : g = f := List.inj_on_of_nodup_map hnd hg hf hpath
      subst this
      simp [hb] at hgs
    · rcases hcc : calcChecksum g.path with e' | c'
      · simp [hcc] at hxg
      · simp only [hcc] at hxg
        have hxg' : (g.path, c', u64AsI64 g.size) = x := by simpa using hxg
        have hpath : g.path = f.path := by rw [← heq, ← hxg']
        have : g = f := List.inj_on_of_nodup_map hnd hg hf hpath
        subst this
        rw [hcc] at he
        cases he
  · intro c hb
    simp only [calculate_checksums_parallel, List.partition_eq_filter_filter,
      List.mem_append, List.mem_map, List.mem_filter]
    exact Or.inl ⟨f, ⟨hf, by simp [hb]⟩, by simp [hb]⟩
  · intro c hb hcc
    simp only [calculate_checksums_parallel, List.partition_eq_filter_filter,
      List.mem_append, List.mem_filterMap, List.mem_filter]
    exact Or.inr ⟨f, ⟨hf, by simp [hb]⟩, by simp [hcc]⟩

/-- Witness for C9 on a three-file batch: the failing file is dropped,
the reused and the freshly hashed fingerprints are both returned. -/
theorem calculate_checksums_parallel_spec_witness :
    ((([⟨"a", 1, 0, 0, some "ha"⟩, ⟨"b", 2, 0, 0, none⟩,
        ⟨"c", 3, 0, 0, none⟩] : List FileInfo).map (·.path)).Nodup ∧
      (⟨"b", 2, 0, 0, none⟩ : FileInfo) ∈
        ([⟨"a", 1, 0, 0, some "ha"⟩, ⟨"b", 2, 0, 0, none⟩,
          ⟨"c", 3, 0, 0, none⟩] : List FileInfo)) ∧
    ∀ x ∈ calculate_checksums_parallel
        (fun p => if p = "b" then Except.error (DdriveErrorM.Checksum "read failed")
                  else Except.ok "hc")
        [⟨"a", 1, 0, 0, some "ha"⟩, ⟨"b", 2, 0, 0, none⟩, ⟨"c", 3, 0, 0, none⟩],
      x.1 ≠ "b" :=
  ⟨⟨by simp, by simp⟩,
   (calculate_checksums_parallel_spec
      (fun p => if p = "b" then Except.error (DdriveErrorM.Checksum "read failed")
                else Except.ok "hc")
      [⟨"a", 1, 0, 0, some "ha"⟩, ⟨"b", 2, 0, 0, none⟩, ⟨"c", 3, 0, 0, none⟩]
      ⟨"b", 2, 0, 0, none⟩ (by simp) (by simp)).1 rfl
      ⟨DdriveErrorM.Checksum "read failed", by simp⟩⟩

theorem lookupKey_cons {κ : Type} [DecidableEq κ] (k' : κ) (fs : List FileInfo)
    (rest : List (κ × List FileInfo)) (k : κ) :
    lookupKey ((k', fs) :: rest) k = if k' = k then some fs else lookupKey rest k := by
  by_cases h : k' = k <;> simp [lookupKey, List.find?_cons, h]

theorem lookupKey_insertByKey_self {κ : Type} [DecidableEq κ] (k : κ)
    (f : FileInfo) (m : List (κ × List FileInfo)) :
    lookupKey (insertByKey k f m) k = some ((lookupKey m k).getD [] ++ [f]) := by
  induction m with
  | nil => simp [insertByKey, lookupKey]
  | cons p rest ih =>
    obtain ⟨k', fs⟩ := p
    by_cases h : k' = k
    · subst h
      simp [insertByKey, lookupKey_cons]
    · simp [insertByKey, h, lookupKey_cons, ih]

theorem lookupKey_insertByKey_ne {κ : Type} [DecidableEq κ] (kIns : κ)
    (f : FileInfo) (m : List (κ × List FileInfo)) (k : κ) (h : k ≠ kIns) :
    lookupKey (insertByKey kIns f m) k = lookupKey m k := by
  induction m with
  | nil => simp [insertByKey, lookupKey, Ne.symm h]
  | cons p rest ih =>
    obtain ⟨k', fs⟩ := p
    by_cases h' : k' = kIns
    · subst h'
      simp [insertByKey, lookupKey_cons, Ne.symm h]
    · simp [insertByKey, h', lookupKey_cons, ih]

theorem groupBy_lookup {κ : Type} [DecidableEq κ] (key : FileInfo → κ)
    (l : List FileInfo) :
    ∀ (m : List (κ × List FileInfo)) (k : κ),
      lookupKey (groupBy key m l) k =
        if (lookupKey m k).isSome ∨ l.filter (fun x => key x = k) ≠ [] then
          some ((lookupKey m k).getD [] ++ l.filter (fun x => key x = k))
        else none := by
  induction l with
  | nil =>
    intro m k
    cases h : lookupKey m k <;> simp [groupBy, h]
  | cons f rest ih =>
    intro m k
    simp only [groupBy]
    rw [ih]
    by_cases hk : key f = k
    · subst hk
      rw [lookupKey_insertByKey_self]
      cases h : lookupKey m (key f) <;>
        simp [h, List.filter_cons, List.append_assoc]
    · rw [lookupKey_insertByKey_ne _ _ _ _ (fun he => hk he.symm)]
      simp [List.filter_cons, hk]

theorem insertByKey_keys {κ : Type} [DecidableEq κ] (k : κ) (f : FileInfo)
    (m : List (κ × List FileInfo)) :
    (insertByKey k f m).map Prod.fst =
      if k ∈ m.map Prod.fst then m.map Prod.fst else m.map Prod.fst ++ [k] := by
  induction m with
  | nil => simp [insertByKey]
  | cons p rest ih =>
    obtain ⟨k', fs⟩ := p
    by_cases h : k' = k
    · subst h
      simp [insertByKey]
    · have h' : ¬ k = k' := fun he => h he.symm
      simp only [insertByKey, if_neg h, List.map_cons, List.mem_cons, h',
        false_or, ih]
      by_cases hm : k ∈ rest.map Prod.fst <;> simp [hm]

theorem groupBy_keys_nodup {κ : Type} [DecidableEq κ] (key : FileInfo → κ)
    (l : List FileInfo) :
    ∀ (m : List (κ × List FileInfo)), (m.map Prod.fst).Nodup →
      ((groupBy key m l).map Prod.fst).Nodup := by
  induction l with
  | nil => intro m hm; simpa [groupBy] using hm
  | cons f rest ih =>
    intro m hm
    simp only [groupBy]
    refine ih _ ?_
    rw [insertByKey_keys]
    by_cases h : key f ∈ m.map Prod.fst
    · simpa [h] using hm
    · simp [h, List.nodup_append, hm]

theorem lookupKey_eq_of_mem {κ : Type} [DecidableEq κ] :
    ∀ (m : List (κ × List FileInfo)), (m.map Prod.fst).Nodup →
      ∀ (k : κ) (b : List FileInfo), (k, b) ∈ m → lookupKey m k = some b := by
  intro m
  induction m with
  | nil => intro _ k b hb; cases hb
  | cons p rest ih =>
    intro hm k b hb
    obtain ⟨k', fs⟩ := p
    rw [List.map_cons] at hm
    have hm' := List.nodup_cons.mp hm
    rcases List.mem_cons.mp hb with heq | hmem
    · cases heq
      simp [lookupKey_cons]
    · rw [lookupKey_cons]
      have hk : k' ≠ k := by
        rintro rfl
        exact hm'.1 (List.mem_map.mpr ⟨(k', b), hmem, rfl⟩)
      rw [if_neg hk]
      exact ih hm'.2 k b hmem

theorem mem_of_lookupKey {κ : Type} [DecidableEq κ] :
    ∀ (m : List (κ × List FileInfo)) (k : κ) (b : List FileInfo),
      lookupKey m k = some b → (k, b) ∈ m := by
  intro m
  induction m with
  | nil => intro k b h; simp [lookupKey] at h
  | cons p rest ih =>
    intro k b h
    obtain ⟨k', fs⟩ := p
    rw [lookupKey_cons] at h
    by_cases hk : k' = k
    · subst hk
      simp at h
      subst h
      exact List.mem_cons_self _ _
    · simp [hk] at h
      exact List.mem_cons_of_mem _ (ih k b h)

theorem head_filter_eq_find {α : Type} (p : α → Bool) (l : List α) :
    (l.filter p).head? = l.find? p := by
  induction l with
  | nil => simp
  | cons a rest ih => cases h : p a <;> simp [List.filter_cons, List.find?_cons, h, ih]

/-- C8 (amended): in lightweight mode, each bucket of the rename key
`(size, creation-time seconds)` contributes at most one pair: a pair
`(d, n)` is emitted exactly when `d` is the first deleted file of its
key and `n` is the first new file of that key with its checksum cleared;
every other file in a multi-member bucket is left for the deleted and
new sets to absorb. -/
theorem find_renames_by_metadata_first_match (dd nn : List FileInfo)
    (d n : FileInfo) :
    (d, n) ∈ find_potential_renames_by_metadata dd nn ↔
      (dd.find? (fun x => metadataKey x = metadataKey d) = some d ∧
       ∃ n0, nn.find? (fun x => metadataKey x = metadataKey d) = some n0 ∧
             n = { n0 with b3sum := none }) := by
  unfold find_potential_renames_by_metadata
  constructor
  · intro hmem
    obtain ⟨⟨k, b⟩, hkb, hfn⟩ := List.mem_filterMap.mp hmem
    simp only at hfn
    split at hfn
    case _ ngp hlk =>
      split at hfn
      case _ d0 n0 hbh hnh =>
        simp only [Option.some.injEq, Prod.mk.injEq] at hfn
        obtain ⟨hd, hn⟩ := hfn
        subst hd
        have hnodup : ((groupBy metadataKey
            ([] : List ((Nat × Option Nat) × List FileInfo)) dd).map Prod.fst).Nodup :=
          groupBy_keys_nodup _ _ _ (by simp)
        have hlkb := lookupKey_eq_of_mem _ hnodup k b hkb
        rw [groupBy_lookup] at hlkb
        simp only [lookupKey, List.find?_nil, Option.isSome_none,
          Bool.false_eq_true, false_or, Option.getD_none, List.nil_append]
          at hlkb
        by_cases hfil : dd.filter (fun x => metadataKey x = k) = []
        · simp [hfil] at hlkb
        · rw [if_pos hfil] at hlkb
          have hb : b = dd.filter (fun x => metadataKey x = k) :=
            (Option.some.inj hlkb).symm
          rw [groupBy_lookup] at hlk
          simp only [lookupKey, List.find?_nil, Option.isSome_none,
            Bool.false_eq_true, false_or, Option.getD_none, List.nil_append]
            at hlk
          by_cases hfil2 : nn.filter (fun x => metadataKey x = k) = []
          · simp [hfil2] at hlk
          · rw [if_pos hfil2] at hlk
            have hng : ngp = nn.filter (fun x => metadataKey x = k) :=
              (Option.some.inj hlk).symm
            have hdfind : dd.find? (fun x => metadataKey x = k) = some d0 := by
              rw [← head_filter_eq_find, ← hb, hbh]
            have hkey : metadataKey d0 = k := by
              have := List.find?_some hdfind
              simpa using this
            subst hkey
            refine ⟨hdfind, n0, ?_, hn.symm⟩
            rw [← head_filter_eq_find, ← hng, hnh]
      case _ x y hxy =>
        cases hfn
    case _ hlk =>
      cases hfn
  · rintro ⟨hdfind, n0, hnfind, hn⟩
    have hfb : dd.filter (fun x => metadataKey x = metadataKey d) ≠ [] := by
      intro h
      rw [← head_filter_eq_find, h] at hdfind
      simp at hdfind
    have hfnn : nn.filter (fun x => metadataKey x = metadataKey d) ≠ [] := by
      intro h
      rw [← head_filter_eq_find, h] at hnfind
      simp at hnfind
    have hlkd : lookupKey (groupBy metadataKey [] dd) (metadataKey d) =
        some (dd.filter (fun x => metadataKey x = metadataKey d)) := by
      rw [groupBy_lookup]
      simp [lookupKey, hfb]
    have hlkn : lookupKey (groupBy metadataKey [] nn) (metadataKey d) =
        some (nn.filter (fun x => metadataKey x = metadataKey d)) := by
      rw [groupBy_lookup]
      simp [lookupKey, hfnn]
    refine List.mem_filterMap.mpr
      ⟨(metadataKey d, dd.filter (fun x => metadataKey x = metadataKey d)),
       mem_of_lookupKey _ _ _ hlkd, ?_⟩
    simp only [hlkn, head_filter_eq_find, hdfind, hnfind]
    simp [hn]

/-- C8 (counterexample): two deleted and two new files all sharing the
rename key `(5, 50)` produce a single pair — the first deleted with the
first new — not one pair per deleted/new in encounter order: the second
pair is absent and the result has length one, not two. -/
theorem find_renames_by_metadata_single_pair_per_bucket :
    metadataKey ⟨"d1", 5, 100, 50, none⟩ = metadataKey ⟨"d2", 5, 101, 50, none⟩ ∧
    metadataKey ⟨"d1", 5, 100, 50, none⟩ = metadataKey ⟨"n1", 5, 102, 50, none⟩ ∧
    metadataKey ⟨"d1", 5, 100, 50, none⟩ = metadataKey ⟨"n2", 5, 103, 50, none⟩ ∧
    find_potential_renames_by_metadata
        [⟨"d1", 5, 100, 50, none⟩, ⟨"d2", 5, 101, 50, none⟩]
        [⟨"n1", 5, 102, 50, none⟩, ⟨"n2", 5, 103, 50, none⟩] =
      [(⟨"d1", 5, 100, 50, none⟩, ⟨"n1", 5, 102, 50, none⟩)] ∧
    (⟨"d2", 5, 101, 50, none⟩, ⟨"n2", 5, 103, 50, none⟩) ∉
      find_potential_renames_by_metadata
        [⟨"d1", 5, 100, 50, none⟩, ⟨"d2", 5, 101, 50, none⟩]
        [⟨"n1", 5, 102, 50, none⟩, ⟨"n2", 5, 103, 50, none⟩] ∧
    (find_potential_renames_by_metadata
        [⟨"d1", 5, 100, 50, none⟩, ⟨"d2", 5, 101, 50, none⟩]
        [⟨"n1", 5, 102, 50, none⟩, ⟨"n2", 5, 103, 50, none⟩]).length ≠ 2 := by
  decide

theorem scanStep_newFile_inv (lookup : String → Option FileRecord)
    (calcChecksum : String → Except DdriveErrorM String) (use_checksums : Bool)
    (f g : FileInfo)
    (h : scanStep lookup calcChecksum use_checksums f = .ok (.newFile g)) :
    g = f ∧ lookup f.path = none := by
  unfold scanStep at h
  cases hl : lookup f.path with
  | none =>
    simp only [hl, Except.ok.injEq, ScanClass.newFile.injEq] at h
    exact ⟨h.symm, rfl⟩
  | some record =>
    simp only [hl] at h
    by_cases hm : f.modified < 0
    · rw [if_pos hm] at h
      cases h
    · rw [if_neg hm] at h
      by_cases hc : f.size = i64AsU64 record.size ∧
          f.modified.toNat ≤ i64AsU64 record.updated_at
      · rw [if_pos hc] at h
        cases h
      · rw [if_neg hc] at h
        cases use_checksums with
        | false => simp at h
        | true =>
          rw [if_pos (by trivial)] at h
          cases heff : effectiveChecksum calcChecksum f with
          | error e => simp [heff] at h
          | ok c =>
            simp only [heff] at h
            by_cases hne : c ≠ record.b3sum
            · rw [if_pos hne] at h
              cases h
            · rw [if_neg hne] at h
              cases h

theorem scanStep_changedFile_inv (lookup : String → Option FileRecord)
    (calcChecksum : String → Except DdriveErrorM String) (f g : FileInfo)
    (h : scanStep lookup calcChecksum true f = .ok (.changedFile g)) :
    ∃ record c, lookup f.path = some record ∧ ¬ f.modified < 0 ∧
      ¬(f.size = i64AsU64 record.size ∧
        f.modified.toNat ≤ i64AsU64 record.updated_at) ∧
      effectiveChecksum calcChecksum f = .ok c ∧ c ≠ record.b3sum ∧
      g = { f with b3sum := some c } := by
  unfold scanStep at h
  cases hl : lookup f.path with
  | none => simp [hl] at h
  | some record =>
    simp only [hl] at h
    by_cases hm : f.modified < 0
    · rw [if_pos hm] at h
      cases h
    · rw [if_neg hm] at h
      by_cases hc : f.size = i64AsU64 record.size ∧
          f.modified.toNat ≤ i64AsU64 record.updated_at
      · rw [if_pos hc] at h
        cases h
      · rw [if_neg hc, if_pos (by trivial)] at h
        cases heff : effectiveChecksum calcChecksum f with
        | error e => simp [heff] at h
        | ok c =>
          simp only [heff] at h
          by_cases hne : c ≠ record.b3sum
          · rw [if_pos hne] at h
            simp only [Except.ok.injEq, ScanClass.changedFile.injEq] at h
            exact ⟨record, c, rfl, hm, hc, rfl, hne, h.symm⟩
          · rw [if_neg hne] at h
            cases h

theorem scanStep_unchanged_of (lookup : String → Option FileRecord)
    (calcChecksum : String → Except DdriveErrorM String) (f : FileInfo)
    (record : FileRecord) (hl : lookup f.path = some record)
    (hm : ¬ f.modified < 0)
    (hc : f.size = i64AsU64 record.size ∧
      f.modified.toNat ≤ i64AsU64 record.updated_at) :
    scanStep lookup calcChecksum true f = .ok .unchanged := by
  unfold scanStep
  simp only [hl, if_neg hm, if_pos hc]

theorem scanStep_changed_of (lookup : String → Option FileRecord)
    (calcChecksum : String → Except DdriveErrorM String) (f : FileInfo)
    (record : FileRecord) (c : String) (hl : lookup f.path = some record)
    (hm : ¬ f.modified < 0)
    (hc : ¬(f.size = i64AsU64 record.size ∧
      f.modified.toNat ≤ i64AsU64 record.updated_at))
    (heff : effectiveChecksum calcChecksum f = .ok c) (hne : c ≠ record.b3sum) :
    scanStep lookup calcChecksum true f =
      .ok (.changedFile { f with b3sum := some c }) := by
  unfold scanStep
  simp only [hl]
  rw [if_neg hm, if_neg hc, if_pos (by trivial), heff]
  simp [hne]

theorem scanStep_unchanged_checksum_of (lookup : String → Option FileRecord)
    (calcChecksum : String → Except DdriveErrorM String) (f : FileInfo)
    (record : FileRecord) (hl : lookup f.path = some record)
    (hm : ¬ f.modified < 0)
    (hc : ¬(f.size = i64AsU64 record.size ∧
      f.modified.toNat ≤ i64AsU64 record.updated_at))
    (heff : effectiveChecksum calcChecksum f = .ok record.b3sum) :
    scanStep lookup calcChecksum true f = .ok .unchanged := by
  unfold scanStep
  simp only [hl]
  rw [if_neg hm, if_neg hc, if_pos (by trivial), heff]
  simp

theorem scanLoop_ok_step (lookup : String → Option FileRecord)
    (calcChecksum : String → Except DdriveErrorM String) (use_checksums : Bool) :
    ∀ (l : List FileInfo) (pr : List FileInfo × List FileInfo),
      scanLoop lookup calcChecksum use_checksums l = .ok pr →
      ∀ f ∈ l, ∃ cls, scanStep lookup calcChecksum use_checksums f = .ok cls := by
  intro l
  induction l with
  | nil => intro pr h f hf; cases hf
  | cons a rest ih =>
    intro pr h f hf
    cases hs : scanStep lookup calcChecksum use_checksums a with
    | error e => simp [scanLoop, hs] at h
    | ok cls =>
      cases hrest : scanLoop lookup calcChecksum use_checksums rest with
      | error e => simp [scanLoop, hs, hrest] at h
      | ok pr' =>
        rcases List.mem_cons.mp hf with rfl | hmem
        · exact ⟨cls, hs⟩
        · exact ih pr' hrest f hmem

theorem scanLoop_mem_new (lookup : String → Option FileRecord)
    (calcChecksum : String → Except DdriveErrorM String) (use_checksums : Bool) :
    ∀ (l ns cs : List FileInfo),
      scanLoop lookup calcChecksum use_checksums l = .ok (ns, cs) →
      ∀ g, g ∈ ns ↔
        ∃ f ∈ l, scanStep lookup calcChecksum use_checksums f = .ok (.newFile g) := by
  intro l
  induction l with
  | nil =>
    intro ns cs h g
    simp only [scanLoop, Except.ok.injEq, Prod.mk.injEq] at h
    obtain ⟨h1, h2⟩ := h
    subst h1
    simp
  | cons a rest ih =>
    intro ns cs h g
    cases hs : scanStep lookup calcChecksum use_checksums a with
    | error e => simp [scanLoop, hs] at h
    | ok cls =>
      cases hrest : scanLoop lookup calcChecksum use_checksums rest with
      | error e => simp [scanLoop, hs, hrest] at h
      | ok pr' =>
        obtain ⟨ns', cs'⟩ := pr'
        have ihg := ih ns' cs' hrest g
        cases cls with
        | unchanged =>
          simp only [scanLoop, hs, hrest, Except.ok.injEq, Prod.mk.injEq] at h
          obtain ⟨h1, h2⟩ := h
          subst h1
          constructor
          · intro hg
            obtain ⟨f, hf, hstep⟩ := ihg.mp hg
            exact ⟨f, List.mem_cons_of_mem _ hf, hstep⟩
          · rintro ⟨f, hf, hstep⟩
            rcases List.mem_cons.mp hf with rfl | hmem
            · rw [hs] at hstep
              cases hstep
            · exact ihg.mpr ⟨f, hmem, hstep⟩
        | newFile g' =>
          simp only [scanLoop, hs, hrest, Except.ok.injEq, Prod.mk.injEq] at h
          obtain ⟨h1, h2⟩ := h
          subst h1
          constructor
          · intro hg
            rcases List.mem_cons.mp hg with rfl | hmem
            · exact ⟨a, List.mem_cons_self _ _, hs⟩
            · obtain ⟨f, hf, hstep⟩ := ihg.mp hmem
              exact ⟨f, List.mem_cons_of_mem _ hf, hstep⟩
          · rintro ⟨f, hf, hstep⟩
            rcases List.mem_cons.mp hf with rfl | hmem
            · rw [hs] at hstep
              simp only [Except.ok.injEq, ScanClass.newFile.injEq] at hstep
              subst hstep
              exact List.mem_cons_self _ _
            · exact List.mem_cons_of_mem _ (ihg.mpr ⟨f, hmem, hstep⟩)
        | changedFile g' =>
          simp only [scanLoop, hs, hrest, Except.ok.injEq, Prod.mk.injEq] at h
          obtain ⟨h1, h2⟩ := h
          subst h1
          constructor
          · intro hg
            obtain ⟨f, hf, hstep⟩ := ihg.mp hg
            exact ⟨f, List.mem_cons_of_mem _ hf, hstep⟩
          · rintro ⟨f, hf, hstep⟩
            rcases List.mem_cons.mp hf with rfl | hmem
            · rw [hs] at hstep
              cases hstep
            · exact ihg.mpr ⟨f, hmem, hstep⟩

theorem scanLoop_mem_changed (lookup : String → Option FileRecord)
    (calcChecksum : String → Except DdriveErrorM String) (use_checksums : Bool) :
    ∀ (l ns cs : List FileInfo),
      scanLoop lookup calcChecksum use_checksums l = .ok (ns, cs) →
      ∀ g, g ∈ cs ↔
        ∃ f ∈ l, scanStep lookup calcChecksum use_checksums f = .ok (.changedFile g) := by
  intro l
  induction l with
  | nil =>
    intro ns cs h g
    simp only [scanLoop, Except.ok.injEq, Prod.mk.injEq] at h
    obtain ⟨h1, h2⟩ := h
    subst h2
    simp
  | cons a rest ih =>
    intro ns cs h g
    cases hs : scanStep lookup calcChecksum use_checksums a with
    | error e => simp [scanLoop, hs] at h
    | ok cls =>
      cases hrest : scanLoop lookup calcChecksum use_checksums rest with
      | error e => simp [scanLoop, hs, hrest] at h
      | ok pr' =>
        obtain ⟨ns', cs'⟩ := pr'
        have ihg := ih ns' cs' hrest g
        cases cls with
        | unchanged =>
          simp only [scanLoop, hs, hrest, Except.ok.injEq, Prod.mk.injEq] at h
          obtain ⟨h1, h2⟩ := h
          subst h2
          constructor
          · intro hg
            obtain ⟨f, hf, hstep⟩ := ihg.mp hg
            exact ⟨f, List.mem_cons_of_mem _ hf, hstep⟩
          · rintro ⟨f, hf, hstep⟩
            rcases List.mem_cons.mp hf with rfl | hmem
            · rw [hs] at hstep
              cases hstep
            · exact ihg.mpr ⟨f, hmem, hstep⟩
        | newFile g' =>
          simp only [scanLoop, hs, hrest, Except.ok.injEq, Prod.mk.injEq] at h
          obtain ⟨h1, h2⟩ := h
          subst h2
          constructor
          · intro hg
            obtain ⟨f, hf, hstep⟩ := ihg.mp hg
            exact ⟨f, List.mem_cons_of_mem _ hf, hstep⟩
          · rintro ⟨f, hf, hstep⟩
            rcases List.mem_cons.mp hf with rfl | hmem
            · rw [hs] at hstep
              cases hstep
            · exact ihg.mpr ⟨f, hmem, hstep⟩
        | changedFile g' =>
          simp only [scanLoop, hs, hrest, Except.ok.injEq, Prod.mk.injEq] at h
          obtain ⟨h1, h2⟩ := h
          subst h2
          constructor
          · intro hg
            rcases List.mem_cons.mp hg with rfl | hmem
            · exact ⟨a, List.mem_cons_self _ _, hs⟩
            · obtain ⟨f, hf, hstep⟩ := ihg.mp hmem
              exact ⟨f, List.mem_cons_of_mem _ hf, hstep⟩
          · rintro ⟨f, hf, hstep⟩
            rcases List.mem_cons.mp hf with rfl | hmem
            · rw [hs] at hstep
              simp only [Except.ok.injEq, ScanClass.changedFile.injEq] at hstep
              subst hstep
              exact List.mem_cons_self _ _
            · exact List.mem_cons_of_mem _ (ihg.mpr ⟨f, hmem, hstep⟩)

theorem calcAllChecksums_paths (calcChecksum : String → Except DdriveErrorM String) :
    ∀ (l out : List FileInfo), calcAllChecksums calcChecksum l = .ok out →
      ∀ g ∈ out, ∃ g0 ∈ l, g.path = g0.path := by
  intro l
  induction l with
  | nil =>
    intro out h g hg
    simp only [calcAllChecksums, Except.ok.injEq] at h
    subst h
    cases hg
  | cons f rest ih =>
    intro out h g hg
    cases hc : calcChecksum f.path with
    | error e => simp [calcAllChecksums, hc] at h
    | ok c =>
      cases hr : calcAllChecksums calcChecksum rest with
      | error e => simp [calcAllChecksums, hc, hr] at h
      | ok rest' =>
        simp only [calcAllChecksums, hc, hr, Except.ok.injEq] at h
        subst h
        rcases List.mem_cons.mp hg with rfl | hmem
        · exact ⟨f, List.mem_cons_self _ _, rfl⟩
        · obtain ⟨g0, hg0, hp⟩ := ih rest' hr g hmem
          exact ⟨g0, List.mem_cons_of_mem _ hg0, hp⟩

theorem ensure_checksums_paths (calcChecksum : String → Except DdriveErrorM String)
    (files out : List FileInfo)
    (h : ensure_checksums_for_files calcChecksum files = .ok out) :
    ∀ g ∈ out, ∃ g0 ∈ files, g.path = g0.path := by
  unfold ensure_checksums_for_files at h
  simp only [List.partition_eq_filter_filter] at h
  cases hc : calcAllChecksums calcChecksum
      (files.filter (not ∘ fun f => f.b3sum.isSome)) with
  | error e => rw [hc] at h; cases h
  | ok calculated =>
    rw [hc] at h
    simp only [Except.ok.injEq] at h
    subst h
    intro g hg
    rcases List.mem_append.mp hg with hg1 | hg2
    · exact ⟨g, (List.mem_filter.mp hg1).1, rfl⟩
    · obtain ⟨g0, hg0, hp⟩ := calcAllChecksums_paths calcChecksum _ _ hc g hg2
      exact ⟨g0, (List.mem_filter.mp hg0).1, hp⟩

theorem groupBy_mem_bucket {κ : Type} [DecidableEq κ] (key : FileInfo → κ)
    (l : List FileInfo) (k : κ) (b : List FileInfo)
    (h : (k, b) ∈ groupBy key [] l) :
    b = l.filter (fun x => key x = k) ∧ b ≠ [] := by
  have hnodup : ((groupBy key ([] : List (κ × List FileInfo)) l).map Prod.fst).Nodup :=
    groupBy_keys_nodup _ _ _ (by simp)
  have hlk := lookupKey_eq_of_mem _ hnodup k b h
  rw [groupBy_lookup] at hlk
  simp only [lookupKey, List.find?_nil, Option.isSome_none, Bool.false_eq_true,
    false_or, Option.getD_none, List.nil_append] at hlk
  by_cases hfil : l.filter (fun x => key x = k) = []
  · simp [hfil] at hlk
  · rw [if_pos hfil] at hlk
    have hb := (Option.some.inj hlk).symm
    exact ⟨hb, hb ▸ hfil⟩

theorem find_potential_renames_subset (dd nn : List FileInfo) :
    ∀ p ∈ find_potential_renames dd nn, p.1 ∈ dd ∧ p.2 ∈ nn := by
  intro p hp
  unfold find_potential_renames at hp
  obtain ⟨⟨k, b⟩, hkb, hfn⟩ := List.mem_filterMap.mp hp
  simp only at hfn
  split at hfn
  case _ ngp hlk =>
    split at hfn
    case _ d0 n0 hbh hnh =>
      split at hfn
      case isTrue hsz =>
        simp only [Option.some.injEq] at hfn
        subst hfn
        have hd0 : d0 ∈ b := List.mem_of_mem_head? (by rw [hbh]; simp)
        obtain ⟨hb, _⟩ := groupBy_mem_bucket _ dd k b hkb
        have hkngp : (k, ngp) ∈ groupBy (fun f => f.b3sum) [] nn :=
          mem_of_lookupKey _ _ _ hlk
        obtain ⟨hng, _⟩ := groupBy_mem_bucket _ nn k ngp hkngp
        have hn0 : n0 ∈ ngp := List.mem_of_mem_head? (by rw [hnh]; simp)
        constructor
        · rw [hb] at hd0
          exact (List.mem_filter.mp hd0).1
        · rw [hng] at hn0
          exact (List.mem_filter.mp hn0).1
      case isFalse hsz => cases hfn
    case _ x y hxy => cases hfn
  case _ hlk => cases hfn

/-- Any file classified as unchanged by the loop body appears in none of
the four outputs of `detect_changes` (checksum mode). -/
theorem detect_changes_unchanged_excluded
    (calcChecksum : String → Except DdriveErrorM String)
    (scanned : List FileInfo) (tracked : List FileRecord)
    (newL changedL deletedL : List FileInfo)
    (renamesL : List (FileInfo × FileInfo)) (f : FileInfo)
    (hnd : (scanned.map (·.path)).Nodup) (hf : f ∈ scanned)
    (hstep : scanStep (trackedLookup tracked) calcChecksum true f = .ok .unchanged)
    (hok : detect_changes calcChecksum scanned tracked true =
      .ok (newL, changedL, deletedL, renamesL)) :
    (∀ g ∈ newL, g.path ≠ f.path) ∧ (∀ g ∈ changedL, g.path ≠ f.path) ∧
    (∀ g ∈ deletedL, g.path ≠ f.path) ∧
    (∀ p ∈ renamesL, p.1.path ≠ f.path ∧ p.2.path ≠ f.path) := by
  unfold detect_changes at hok
  cases hscan : scanLoop (trackedLookup tracked) calcChecksum true scanned with
  | error e => rw [hscan] at hok; cases hok
  | ok pr =>
    obtain ⟨nf, cf⟩ := pr
    rw [hscan] at hok
    simp only [if_true] at hok
    cases hens : ensure_checksums_for_files calcChecksum nf with
    | error e => simp only [hens] at hok; cases hok
    | ok nwc =>
      simp only [hens, Except.ok.injEq, Prod.mk.injEq] at hok
      obtain ⟨h1, h2, h3, h4⟩ := hok
      subst h1; subst h2; subst h3; subst h4
      -- a new-file classification for the path of `f` is impossible
      have hnew : ∀ g ∈ nf, g.path ≠ f.path := by
        intro g hg heq
        obtain ⟨f', hf', hstep'⟩ :=
          (scanLoop_mem_new _ _ _ scanned nf cf hscan g).mp hg
        obtain ⟨hgf', hlnone⟩ := scanStep_newFile_inv _ _ _ _ _ hstep'
        subst hgf'
        have hgf : g = f := List.inj_on_of_nodup_map hnd hf' hf heq
        subst hgf
        unfold scanStep at hstep
        simp only [hlnone] at hstep
        exact absurd hstep (by simp)
      -- a changed-file classification for the path of `f` is impossible
      have hchanged : ∀ g ∈ cf, g.path ≠ f.path := by
        intro g hg heq
        obtain ⟨f', hf', hstep'⟩ :=
          (scanLoop_mem_changed _ _ _ scanned nf cf hscan g).mp hg
        obtain ⟨record, c, _, _, _, _, _, hgf'⟩ :=
          scanStep_changedFile_inv _ _ _ _ hstep'
        have hpath : f'.path = f.path := by rw [← heq, hgf']
        have hff : f' = f := List.inj_on_of_nodup_map hnd hf' hf hpath
        subst hff
        exact absurd (hstep'.symm.trans hstep) (by simp)
      -- a deleted record cannot carry the path of a scanned file
      have hdeleted : ∀ g ∈ (tracked.filter (fun t =>
          ¬ scanned.any (fun s => s.path = t.path))).map recordToFileInfo,
          g.path ≠ f.path := by
        intro g hg heq
        obtain ⟨t, ht, hgt⟩ := List.mem_map.mp hg
        have htp : t.path = g.path := by rw [← hgt]; rfl
        have hany := (List.mem_filter.mp ht).2
        simp only [List.any_eq_true, decide_eq_true_eq, not_exists, not_and,
          decide_not, Bool.not_eq_true', decide_eq_false_iff_not] at hany
        exact hany f hf (by rw [htp, heq])
      refine ⟨fun g hg => hnew g (List.mem_of_mem_filter hg),
        hchanged,
        fun g hg => hdeleted g (List.mem_of_mem_filter hg),
        ?_⟩
      intro p hp
      obtain ⟨hp1, hp2⟩ := find_potential_renames_subset _ _ p hp
      constructor
      · exact hdeleted p.1 hp1
      · intro heq
        obtain ⟨g0, hg0, hgp⟩ := ensure_checksums_paths calcChecksum nf nwc hens p.2 hp2
        exact hnew g0 hg0 (by rw [← hgp, heq])

/-- C3: for a scanned file with a tracked record (checksum mode): if the
sizes agree and the scan mtime is at most the record's `updated_at`, the
file is dropped as unchanged and appears in none of new/changed/deleted/
renames; otherwise its effective fingerprint (reused or computed) is
compared to the record's, the file is emitted to `changed` carrying the
new fingerprint exactly when they differ, and is dropped entirely when
they are equal. -/
theorem detect_changes_tracked_classification
    (calcChecksum : String → Except DdriveErrorM String)
    (scanned : List FileInfo) (tracked : List FileRecord)
    (newL changedL deletedL : List FileInfo)
    (renamesL : List (FileInfo × FileInfo)) (f : FileInfo) (record : FileRecord)
    (hnd : (scanned.map (·.path)).Nodup) (hf : f ∈ scanned)
    (hl : trackedLookup tracked f.path = some record)
    (hok : detect_changes calcChecksum scanned tracked true =
      .ok (newL, changedL, deletedL, renamesL)) :
    ((f.size = i64AsU64 record.size ∧
        f.modified.toNat ≤ i64AsU64 record.updated_at) →
      (∀ g ∈ newL, g.path ≠ f.path) ∧ (∀ g ∈ changedL, g.path ≠ f.path) ∧
      (∀ g ∈ deletedL, g.path ≠ f.path) ∧
      (∀ p ∈ renamesL, p.1.path ≠ f.path ∧ p.2.path ≠ f.path)) ∧
    (¬(f.size = i64AsU64 record.size ∧
        f.modified.toNat ≤ i64AsU64 record.updated_at) →
      ∀ c, effectiveChecksum calcChecksum f = .ok c →
        ((∃ g ∈ changedL, g.path = f.path ∧ g.b3sum = some c) ↔
          c ≠ record.b3sum) ∧
        (c = record.b3sum →
          (∀ g ∈ newL, g.path ≠ f.path) ∧ (∀ g ∈ changedL, g.path ≠ f.path) ∧
          (∀ g ∈ deletedL, g.path ≠ f.path) ∧
          (∀ p ∈ renamesL, p.1.path ≠ f.path ∧ p.2.path ≠ f.path))) := by
  obtain ⟨nf, cf, hscan, hcf⟩ : ∃ nf cf,
      scanLoop (trackedLookup tracked) calcChecksum true scanned =
        .ok (nf, cf) ∧ changedL = cf := by
    have hok' := hok
    unfold detect_changes at hok'
    cases hscan : scanLoop (trackedLookup tracked) calcChecksum true scanned with
    | error e => rw [hscan] at hok'; cases hok'
    | ok pr =>
      obtain ⟨nf, cf⟩ := pr
      rw [hscan] at hok'
      simp only [if_true] at hok'
      cases hens : ensure_checksums_for_files calcChecksum nf with
      | error e => simp only [hens] at hok'; cases hok'
      | ok nwc =>
        simp only [hens, Except.ok.injEq, Prod.mk.injEq] at hok'
        exact ⟨nf, cf, rfl, hok'.2.1.symm⟩
  subst hcf
  obtain ⟨cls, hcls⟩ := scanLoop_ok_step _ _ _ scanned (nf, changedL) hscan f hf
  have hm : ¬ f.modified < 0 := by
    intro hmneg
    have hstepErr : scanStep (trackedLookup tracked) calcChecksum true f =
        .error (.FileSystem "Invalid modification time") := by
      unfold scanStep
      simp only [hl, if_pos hmneg]
    rw [hstepErr] at hcls
    cases hcls
  constructor
  · intro hcond
    exact detect_changes_unchanged_excluded calcChecksum scanned tracked
      newL changedL deletedL renamesL f hnd hf
      (scanStep_unchanged_of _ calcChecksum f record hl hm hcond) hok
  · intro hcond c heff
    constructor
    · constructor
      · rintro ⟨g, hg, hpath, hb3⟩
        obtain ⟨f', hf', hstep'⟩ :=
          (scanLoop_mem_changed _ _ _ scanned nf changedL hscan g).mp hg
        obtain ⟨record', c', hl', hm', hc', heff', hne', hgf'⟩ :=
          scanStep_changedFile_inv _ _ _ _ hstep'
        have hpath' : f'.path = f.path := by rw [← hpath, hgf']
        have hff : f' = f := List.inj_on_of_nodup_map hnd hf' hf hpath'
        subst hff
        rw [hl] at hl'
        have hrec := Option.some.inj hl'
        rw [hgf'] at hb3
        simp only [Option.some.injEq] at hb3
        subst hb3
        rw [← hrec] at hne'
        exact hne'
      · intro hne
        refine ⟨{ f with b3sum := some c }, ?_, rfl, rfl⟩
        exact (scanLoop_mem_changed _ _ _ scanned nf changedL hscan _).mpr
          ⟨f, hf, scanStep_changed_of _ calcChecksum f record c hl hm hcond heff hne⟩
    · intro hceq
      subst hceq
      exact detect_changes_unchanged_excluded calcChecksum scanned tracked
        newL changedL deletedL renamesL f hnd hf
        (scanStep_unchanged_checksum_of _ calcChecksum f record hl hm hcond heff)
        hok

/-- Witness for C3: a one-file scan whose size matches the catalog and
whose mtime is at or before `updated_at` is dropped as unchanged. -/
theorem detect_changes_tracked_classification_witness :
    (([⟨"a.txt", 5, 50, 40, none⟩] : List FileInfo).map (·.path)).Nodup ∧
    (⟨"a.txt", 5, 50, 40, none⟩ : FileInfo) ∈
      ([⟨"a.txt", 5, 50, 40, none⟩] : List FileInfo) ∧
    trackedLookup [⟨"a.txt", 0, 100, none, "h1", 5⟩]
      (⟨"a.txt", 5, 50, 40, none⟩ : FileInfo).path =
        some ⟨"a.txt", 0, 100, none, "h1", 5⟩ ∧
    detect_changes (fun _ => Except.error (DdriveErrorM.Checksum "unused"))
        [⟨"a.txt", 5, 50, 40, none⟩] [⟨"a.txt", 0, 100, none, "h1", 5⟩] true =
      .ok ([], [], [], []) ∧
    (∀ g ∈ ([] : List FileInfo),
      g.path ≠ (⟨"a.txt", 5, 50, 40, none⟩ : FileInfo).path) :=
  ⟨by decide, by decide, by decide, by decide,
   ((detect_changes_tracked_classification
       (fun _ => Except.error (DdriveErrorM.Checksum "unused"))
       [⟨"a.txt", 5, 50, 40, none⟩] [⟨"a.txt", 0, 100, none, "h1", 5⟩]
       [] [] [] [] ⟨"a.txt", 5, 50, 40, none⟩ ⟨"a.txt", 0, 100, none, "h1", 5⟩
       (by decide) (by decide) (by decide) (by decide)).1 (by decide)).1⟩

end Ddrive
